import Mathlib

/-!
Shallow embedding of the `stateDiffTracer` from the repository's
`eth/tracers/native` package (the current revision of the tracer, the one
with the full `report` generator).  Go maps are embedded as functions into
`Option`, `*big.Int` as `Int` (with `Option` where the pointer can be nil),
`[]byte` as `Option (List Nat)` (`none` is a nil slice), `common.Hash` and
uint256 stack words as `Fin (2 ^ 256)`, and `uint64` as `Nat` with explicit
wrap-around `% 2 ^ 64` where the Go code relies on machine arithmetic.
-/

set_option linter.unusedVariables false

namespace StateDiff

/-- Account identifiers (`common.Address`); only equality is used. -/
abbrev Address := Nat

/-- A 256-bit word: `common.Hash` values and EVM stack operands. -/
abbrev Word := Fin (2 ^ 256)

/-- A byte slice's contents (`[]byte` that is non-nil). -/
abbrev Bytes := List Nat

instance : NeZero ((2 : Nat) ^ 256) := ⟨by norm_num⟩

/-- Go `diff[T]`: a before/after snapshot pair. -/
structure Diff (T : Type) where
  before : T
  after : T
deriving DecidableEq, Repr

/-- Go `accountDiff`.  `balanceDelta` is a `*big.Int` (nil-able pointer,
hence `Option Int`); `nonceDelta` a Go `int`; `storage` a Go map (absent key
is `none`, while a map read of an absent key yields the zero pair); `code` a
`diff[[]byte]` whose components are nil-able slices. -/
structure AccountDiff where
  balanceDelta : Option Int
  nonceDelta : Int
  storage : Word → Option (Diff Word)
  code : Diff (Option Bytes)

/-- The tracer's `accounts` map: Go `map[common.Address]accountDiff`. -/
abbrev Accounts := Address → Option AccountDiff

/-- The committed-state reader (`vm.StateDB`), restricted to the four
methods the tracer calls.  `getCode` can return a nil slice. -/
structure StateDB where
  getBalance : Address → Int
  getNonce : Address → Nat
  getCode : Address → Option Bytes
  getState : Address → Word → Word

/-- The opcodes the tracer inspects (`vm.OpCode`); `STOP` stands for any
other opcode. -/
inductive OpCode where
  | CALL
  | CREATE
  | CREATE2
  | SELFDESTRUCT
  | SSTORE
  | STOP
deriving DecidableEq, Repr

/-- A completed call frame as exposed by the inner call-frame tracer:
`{From, To, Type, Value, GasUsed, Input}` per the spec's interface.  `To`
is a nil-able pointer and `Value` a nil-able `*big.Int`. -/
structure CallFrame where
  typ : OpCode
  fromAddr : Address
  toAddr : Option Address
  value : Option Int
  input : Option Bytes
  gasUsed : Nat

/-- The zero value of Go's `diff[common.Hash]`, produced by reading an
absent key from a `map[common.Hash]diff[common.Hash]`. -/
def zeroWordDiff : Diff Word := ⟨0, 0⟩

/-- The entry `tryInitAccDiff` creates: `big.NewInt(0)` balance delta, the
zero `int` nonce delta, a fresh empty storage map and `diff[[]byte]{nil, nil}`. -/
def emptyAccountDiff : AccountDiff :=
  { balanceDelta := some 0
    nonceDelta := 0
    storage := fun _ => none
    code := ⟨none, none⟩ }

/-- `tryInitAccDiff`: if the address has no entry, install the empty entry
and return true; otherwise leave the map untouched and return false. -/
def tryInitAccDiff (s : Accounts) (addr : Address) : Bool × Accounts :=
  match s addr with
  | some _ => (false, s)
  | none => (true, fun a => if a = addr then some emptyAccountDiff else s a)

/-- Point update of the accounts map (Go `l.accounts[addr] = diff`). -/
def setAcc (s : Accounts) (addr : Address) (d : AccountDiff) : Accounts :=
  fun a => if a = addr then some d else s a

/-- `recordNonceIncrese`: init the entry if needed, then `diff.nonceDelta++`.
The `none` branch after `tryInitAccDiff` is unreachable (the entry exists). -/
def recordNonceIncrese (s : Accounts) (addr : Address) : Accounts :=
  let s1 := (tryInitAccDiff s addr).2
  match s1 addr with
  | some d => setAcc s1 addr { d with nonceDelta := d.nonceDelta + 1 }
  | none => s1

/-- `recordCode`: init the entry if needed; on the initializing call capture
`before` from `StateDB.GetCode`, replacing a nil read by the explicit empty
slice; always overwrite `after` with the new code.  The `none` branch after
`tryInitAccDiff` is unreachable. -/
def recordCode (db : StateDB) (s : Accounts) (addr : Address) (code : Option Bytes) :
    Accounts :=
  let isInit := (tryInitAccDiff s addr).1
  let s1 := (tryInitAccDiff s addr).2
  match s1 addr with
  | some d =>
    let d1 :=
      if isInit then
        let beforeCode := db.getCode addr
        let beforeCode := match beforeCode with | none => some ([] : Bytes) | some b => some b
        { d with code := { d.code with before := beforeCode } }
      else d
    setAcc s1 addr { d1 with code := { d1.code with after := code } }
  | none => s1

/-- `recordStorage`: init the entry if needed; read the key's current pair
from the storage map (zero pair when absent), set `after` to the new value,
and only on the account-initializing call set `before` from
`StateDB.GetState`; store the pair back under the key. -/
def recordStorage (db : StateDB) (s : Accounts) (addr : Address) (key after : Word) :
    Accounts :=
  let isInit := (tryInitAccDiff s addr).1
  let s1 := (tryInitAccDiff s addr).2
  match s1 addr with
  | some d =>
    let v := (d.storage key).getD zeroWordDiff
    let v := { v with after := after }
    let v := if isInit then { v with before := db.getState addr key } else v
    setAcc s1 addr { d with storage := fun k => if k = key then some v else d.storage k }
  | none => s1

/-- `recordBalanceChange`: init the entry if needed, then add `delta` to the
accumulated balance delta.  The entry's `balanceDelta` is always a non-nil
`big.Int` (every entry comes from `tryInitAccDiff`); the `getD 0` stands in
for the nil-pointer dereference Go would otherwise panic on. -/
def recordBalanceChange (s : Accounts) (addr : Address) (delta : Int) : Accounts :=
  let s1 := (tryInitAccDiff s addr).2
  match s1 addr with
  | some d => setAcc s1 addr { d with balanceDelta := some (d.balanceDelta.getD 0 + delta) }
  | none => s1

/-- Go's `int64(u)` conversion of a `uint64` value: two's-complement
reinterpretation modulo 2^64. -/
def int64ofUint64 (u : Nat) : Int :=
  if u % 2 ^ 64 < 2 ^ 63 then ((u % 2 ^ 64 : Nat) : Int)
  else ((u % 2 ^ 64 : Nat) : Int) - 2 ^ 64

/-- Go's `uint64(i)` conversion of an `int` value: wrap modulo 2^64. -/
def uint64ofInt (i : Int) : Nat := (i % 2 ^ 64).toNat

/-- Go's `a - b` on `uint64` operands: subtraction wrapping modulo 2^64. -/
def u64sub (a b : Nat) : Nat := (a % 2 ^ 64 + (2 ^ 64 - b % 2 ^ 64)) % 2 ^ 64

/-- `CaptureTxEnd`: read the completed top-level frame from the call-frame
tracer, charge the whole gas usage to the caller as
`big.NewInt(-int64(used))`, and increment the caller's nonce delta unless
the top-level frame is a `CREATE`. -/
def captureTxEnd (s : Accounts) (callFrame : CallFrame) : Accounts :=
  let caller := callFrame.fromAddr
  let used := callFrame.gasUsed
  let s1 := recordBalanceChange s caller (-(int64ofUint64 used))
  if callFrame.typ ≠ OpCode.CREATE then recordNonceIncrese s1 caller else s1

/-- `CaptureStart`: on the outermost call, increment the sender's nonce
delta when the call is a creation; nothing else touches the diff store. -/
def captureStart (s : Accounts) (fromAddr : Address) (toAddr : Address) (create : Bool)
    (input : Option Bytes) (gas : Nat) (value : Option Int) : Accounts :=
  if create then recordNonceIncrese s fromAddr else s

/-- `CaptureEnter`: entering a nested call; increment the initiator's nonce
delta when the call type is `CREATE` or `CREATE2`. -/
def captureEnter (s : Accounts) (typ : OpCode) (fromAddr : Address) (toAddr : Address)
    (input : Option Bytes) (gas : Nat) (value : Option Int) : Accounts :=
  if typ = OpCode.CREATE ∨ typ = OpCode.CREATE2 then recordNonceIncrese s fromAddr else s

/-- `CaptureEnd`: the outermost call completed; `callframe` is the top-level
frame read back from the call-frame tracer.  Gas usage is deliberately not
recorded here.  For creations, record the deployed code read from the state;
for creations and plain calls carrying a non-nil value, record the transfer
on both ends.  The `none` branches stand for the `*callframe.To` pointer
dereference, which Go only reaches with a non-nil `To`. -/
def captureEnd (db : StateDB) (s : Accounts) (callframe : CallFrame)
    (output : Option Bytes) (gasUsed : Nat) : Accounts :=
  match callframe.typ with
  | OpCode.CREATE | OpCode.CREATE2 | OpCode.CALL =>
    let s1 :=
      if callframe.typ = OpCode.CREATE ∨ callframe.typ = OpCode.CREATE2 then
        match callframe.toAddr with
        | some contract => recordCode db s contract (db.getCode contract)
        | none => s
      else s
    match callframe.value with
    | some v =>
      match callframe.toAddr with
      | some toA => recordBalanceChange (recordBalanceChange s1 callframe.fromAddr (-v)) toA v
      | none => s1
    | none => s1
  | _ => s

/-- `CaptureExit`: a nested call completed; `callframe` is that completed
frame, read back from the call-frame tracer's tree.  Gas usage is
deliberately not recorded here.  Creations record the frame's `Input` as the
new code; creations and calls with a non-nil value record the transfer; a
self-destruct records empty code and zeroes the contract's balance. -/
def captureExit (db : StateDB) (s : Accounts) (callframe : CallFrame)
    (output : Option Bytes) (gasUsed : Nat) : Accounts :=
  match callframe.typ with
  | OpCode.CREATE | OpCode.CREATE2 | OpCode.CALL =>
    let s1 :=
      if callframe.typ = OpCode.CREATE ∨ callframe.typ = OpCode.CREATE2 then
        match callframe.toAddr with
        | some contract => recordCode db s contract callframe.input
        | none => s
      else s
    match callframe.value with
    | some v =>
      match callframe.toAddr with
      | some toA => recordBalanceChange (recordBalanceChange s1 callframe.fromAddr (-v)) toA v
      | none => s1
    | none => s1
  | OpCode.SELFDESTRUCT =>
    match callframe.toAddr with
    | some contract =>
      recordBalanceChange (recordCode db s contract (some ([] : Bytes))) contract
        (-(db.getBalance contract))
    | none => s
  | _ => s

/-- `CaptureState`: on an `SSTORE`, when the stack holds at least two
operands, read the key from the top of the stack (`Data()[len-1]`) and the
value from the slot below it (`Data()[len-2]`) and record the storage change
for the executing contract; otherwise do nothing.  The stack is embedded as
the `Data()` slice, whose last element is the top of the stack. -/
def captureState (db : StateDB) (s : Accounts) (op : OpCode) (contractAddr : Address)
    (stack : List Word) : Accounts :=
  if op = OpCode.SSTORE then
    let stackLen := stack.length
    if stackLen ≥ 2 then
      let value := stack.getD (stackLen - 2) 0
      let address := stack.getD (stackLen - 1) 0
      recordStorage db s contractAddr address value
    else s
  else s

/-- Modelled from the spec: the inner call-frame tracer (not under `src/`)
types the outermost frame from the boolean `create` flag of the call-start
event; both creation variants reach the top level as `create = true`, so the
top-level frame's type is `CREATE` for a creation and `CALL` otherwise. -/
def topFrameType (create : Bool) : OpCode :=
  if create then OpCode.CREATE else OpCode.CALL

/-- The lowercase hexadecimal digit character for a value below 16 (0-9,
a-f), as produced by Go's hex formatting. -/
def hexChar (d : Nat) : Char :=
  if d < 10 then Char.ofNat (48 + d) else Char.ofNat (87 + d)

/-- Digit-extraction loop for `toHexChars`; the first argument is a fuel
bound on the number of digits, always sufficient when it exceeds the
number's hex length. -/
def toHexCharsAux : Nat → Nat → List Char
  | 0, _ => []
  | fuel + 1, n =>
    if n < 16 then [hexChar n]
    else toHexCharsAux fuel (n / 16) ++ [hexChar (n % 16)]

/-- The hexadecimal digit characters of a natural number, most significant
first, no leading zeros, a single 0 digit for zero: the digits of Go's
verb for hex formatting and of `big.Int.Text(16)` on non-negative input. -/
def toHexChars (n : Nat) : List Char := toHexCharsAux (n + 1) n

/-- `big.Int.Text(16)`: minus sign followed by the digits of the absolute
value for negatives, plain digits otherwise. -/
def intText16 (i : Int) : List Char :=
  if i < 0 then '-' :: toHexChars i.natAbs else toHexChars i.toNat

/-- Go's `%x` verb on a string: every byte becomes two lowercase hex
digits.  The strings it is applied to here are ASCII, where code points and
bytes coincide. -/
def hexOfAscii (l : List Char) : List Char :=
  l.flatMap fun c => [hexChar (c.toNat / 16), hexChar (c.toNat % 16)]

/-- The report's balance rendering, `fmt.Sprintf("0x%x", b.Text(16))`:
`0x` followed by the `%x` hex encoding of the bytes of the base-16 text. -/
def balanceHexRender (i : Int) : String :=
  ⟨'0' :: 'x' :: hexOfAscii (intText16 i)⟩

/-- The report's nonce rendering, `fmt.Sprintf("0x%x", u)` on a `uint64`:
`0x` followed by the hex digits of the value. -/
def natHexRender (n : Nat) : String :=
  ⟨'0' :: 'x' :: toHexChars n⟩

/-- `hex.EncodeToString`: two lowercase hex digits per byte, no prefix. -/
def bytesHexRender (b : Bytes) : String :=
  ⟨b.flatMap fun byte => [hexChar (byte / 16), hexChar (byte % 16)]⟩

/-- The `4 * k` low bits of `n` as hex digits, least significant first. -/
def nibblesLE : Nat → Nat → List Nat
  | 0, _ => []
  | k + 1, n => n % 16 :: nibblesLE k (n / 16)

/-- `common.Hash.Hex()`: `0x` followed by the fixed-width 64-digit lowercase
hexadecimal form of the 32-byte value, most significant digit first. -/
def hashHex (w : Word) : String :=
  ⟨'0' :: 'x' :: ((nibblesLE 64 w.val).reverse.map hexChar)⟩

/-- Go `fromTo`: a rendered before/after pair. -/
structure fromTo where
  From : String
  To : String
deriving DecidableEq, Repr

/-- A report field: Go stores either the string `"="` or a `fromTo` in an
`any`-typed field. -/
inductive ReportVal where
  | str (s : String)
  | ft (f : fromTo)
deriving DecidableEq, Repr

/-- Go `accountReport`; the storage map (Go `map[string]fromTo`, keyed by
the slot's `Hash.Hex()` which is proved injective below) is embedded per
original key. -/
structure AccountReport where
  balance : ReportVal
  nonce : ReportVal
  code : ReportVal
  storage : Word → Option fromTo

/-- The tracer's `report` method: convert one account's accumulated diff
into the external report, reading current balance and nonce from the
committed state. -/
def report (db : StateDB) (addr : Address) (a : AccountDiff) : AccountReport :=
  let balance : ReportVal :=
    match a.balanceDelta with
    | some delta =>
      if delta ≠ 0 then
        let current := db.getBalance addr
        ReportVal.ft ⟨balanceHexRender (current - delta), balanceHexRender current⟩
      else ReportVal.str "="
    | none => ReportVal.str "="
  let nonce : ReportVal :=
    if a.nonceDelta ≠ 0 then
      let current := db.getNonce addr
      ReportVal.ft
        ⟨natHexRender (u64sub current (uint64ofInt a.nonceDelta)), natHexRender current⟩
    else ReportVal.str "="
  let code : ReportVal :=
    if a.code.before ≠ none ∨ a.code.after ≠ none then
      let before := match a.code.before with | some b => bytesHexRender b | none => ""
      let after := match a.code.after with | some b => bytesHexRender b | none => ""
      if before ≠ after then ReportVal.ft ⟨before, after⟩ else ReportVal.str "="
    else ReportVal.str "="
  let storage : Word → Option fromTo := fun k =>
    match a.storage k with
    | some v =>
      if hashHex v.before ≠ hashHex v.after then some ⟨hashHex v.before, hashHex v.after⟩
      else none
    | none => none
  ⟨balance, nonce, code, storage⟩

/-- The report `GetResult` would emit for an address, from the accumulated
store: `report` applied to the address's entry (`GetResult` only visits
present entries, for which the `getD` default is never used). -/
def reportOf (db : StateDB) (s : Accounts) (addr : Address) : AccountReport :=
  report db addr ((s addr).getD emptyAccountDiff)

/-- The empty accounts map the tracer starts from. -/
def emptyAccounts : Accounts := fun _ => none

/-- The accumulated balance delta an address's entry carries (0 for a
missing entry or a nil `big.Int`). -/
def balanceDeltaOf (s : Accounts) (addr : Address) : Int :=
  match s addr with
  | some d => d.balanceDelta.getD 0
  | none => 0

/-- The accumulated nonce delta an address's entry carries. -/
def nonceDeltaOf (s : Accounts) (addr : Address) : Int :=
  match s addr with
  | some d => d.nonceDelta
  | none => 0

/-- The storage snapshot pair an address's entry carries for a key. -/
def storageOf (s : Accounts) (addr : Address) (k : Word) : Option (Diff Word) :=
  match s addr with
  | some d => d.storage k
  | none => none

/-- The code `before` snapshot an address's entry carries. -/
def codeBeforeOf (s : Accounts) (addr : Address) : Option Bytes :=
  match s addr with
  | some d => d.code.before
  | none => none

/-- The code `after` snapshot an address's entry carries. -/
def codeAfterOf (s : Accounts) (addr : Address) : Option Bytes :=
  match s addr with
  | some d => d.code.after
  | none => none

/-- A traced execution's balance-changing events, replayed in order through
`recordBalanceChange`. -/
def applyBalanceRecords (l : List (Address × Int)) (s : Accounts) : Accounts :=
  l.foldl (fun s p => recordBalanceChange s p.1 p.2) s

/-- The sum of the recorded balance-change amounts attributed to an
address. -/
def sumAmounts (l : List (Address × Int)) (addr : Address) : Int :=
  ((l.filter fun p => p.1 = addr).map fun p => p.2).sum

/-- The `balanceDelta` field of an address's entry, `none` when the address
has no entry (or a nil `big.Int`). -/
def balanceOptOf (s : Accounts) (addr : Address) : Option Int :=
  match s addr with
  | some d => d.balanceDelta
  | none => none

/-- Reassemble a little-endian nibble list into a number. -/
def ofNibblesLE : List Nat → Nat
  | [] => 0
  | d :: ds => d + 16 * ofNibblesLE ds

/-! Helper lemmas about the diff-store operations. -/

theorem tryInitAccDiff_fst (s : Accounts) (addr : Address) :
    (tryInitAccDiff s addr).1 = (s addr).isNone := by
  cases h : s addr <;> simp [tryInitAccDiff, h]

theorem tryInitAccDiff_snd_apply (s : Accounts) (addr b : Address) :
    (tryInitAccDiff s addr).2 b =
      if b = addr then some ((s addr).getD emptyAccountDiff) else s b := by
  cases h : s addr with
  | none =>
    by_cases hb : b = addr <;> simp [tryInitAccDiff, h, hb]
  | some d =>
    by_cases hb : b = addr <;> simp [tryInitAccDiff, h, hb]

theorem setAcc_apply (s : Accounts) (addr b : Address) (d : AccountDiff) :
    setAcc s addr d b = if b = addr then some d else s b := rfl

theorem recordBalanceChange_apply (s : Accounts) (addr b : Address) (delta : Int) :
    recordBalanceChange s addr delta b =
      if b = addr then
        some { ((s addr).getD emptyAccountDiff) with
                 balanceDelta :=
                   some ((((s addr).getD emptyAccountDiff).balanceDelta).getD 0 + delta) }
      else s b := by
  unfold recordBalanceChange
  rw [show ((tryInitAccDiff s addr).2 addr) =
        some ((s addr).getD emptyAccountDiff) by rw [tryInitAccDiff_snd_apply]; simp]
  simp only [setAcc_apply, tryInitAccDiff_snd_apply]
  by_cases hb : b = addr <;> simp [hb]

theorem recordNonceIncrese_apply (s : Accounts) (addr b : Address) :
    recordNonceIncrese s addr b =
      if b = addr then
        some { ((s addr).getD emptyAccountDiff) with
                 nonceDelta := ((s addr).getD emptyAccountDiff).nonceDelta + 1 }
      else s b := by
  unfold recordNonceIncrese
  rw [show ((tryInitAccDiff s addr).2 addr) =
        some ((s addr).getD emptyAccountDiff) by rw [tryInitAccDiff_snd_apply]; simp]
  simp only [setAcc_apply, tryInitAccDiff_snd_apply]
  by_cases hb : b = addr <;> simp [hb]

theorem recordCode_apply (db : StateDB) (s : Accounts) (addr b : Address)
    (code : Option Bytes) :
    recordCode db s addr code b =
      if b = addr then
        some { ((s addr).getD emptyAccountDiff) with
                 code :=
                   ⟨if (s addr).isNone then some ((db.getCode addr).getD [])
                    else ((s addr).getD emptyAccountDiff).code.before,
                    code⟩ }
      else s b := by
  unfold recordCode
  rw [show ((tryInitAccDiff s addr).2 addr) =
        some ((s addr).getD emptyAccountDiff) by rw [tryInitAccDiff_snd_apply]; simp]
  simp only [setAcc_apply, tryInitAccDiff_snd_apply, tryInitAccDiff_fst]
  by_cases hb : b = addr
  · cases h : s addr with
    | none => cases hc : db.getCode addr <;> simp [hb, h, hc]
    | some d => simp [hb, h]
  · cases h : s addr <;> simp [hb, h]

theorem recordStorage_apply (db : StateDB) (s : Accounts) (addr b : Address)
    (key after : Word) :
    recordStorage db s addr key after b =
      if b = addr then
        some { ((s addr).getD emptyAccountDiff) with
                 storage := fun k =>
                   if k = key then
                     some ⟨if (s addr).isNone then db.getState addr key
                           else ((((s addr).getD emptyAccountDiff).storage key).getD
                                   zeroWordDiff).before,
                           after⟩
                   else ((s addr).getD emptyAccountDiff).storage k }
      else s b := by
  unfold recordStorage
  rw [show ((tryInitAccDiff s addr).2 addr) =
        some ((s addr).getD emptyAccountDiff) by rw [tryInitAccDiff_snd_apply]; simp]
  simp only [setAcc_apply, tryInitAccDiff_snd_apply, tryInitAccDiff_fst]
  by_cases hb : b = addr
  · cases h : s addr with
    | none => simp [hb, h]
    | some d => simp [hb, h]
  · cases h : s addr <;> simp [hb, h]

theorem balanceDeltaOf_recordBalanceChange (s : Accounts) (addr b : Address) (delta : Int) :
    balanceDeltaOf (recordBalanceChange s addr delta) b =
      balanceDeltaOf s b + if b = addr then delta else 0 := by
  unfold balanceDeltaOf
  rw [recordBalanceChange_apply]
  by_cases hb : b = addr
  · subst hb
    cases h : s b <;> simp [h, emptyAccountDiff]
  · cases h : s b <;> simp [hb, h]

theorem balanceDeltaOf_recordNonceIncrese (s : Accounts) (addr b : Address) :
    balanceDeltaOf (recordNonceIncrese s addr) b = balanceDeltaOf s b := by
  unfold balanceDeltaOf
  rw [recordNonceIncrese_apply]
  by_cases hb : b = addr
  · subst hb
    cases h : s b <;> simp [h, emptyAccountDiff]
  · simp [hb]

theorem nonceDeltaOf_recordNonceIncrese (s : Accounts) (addr b : Address) :
    nonceDeltaOf (recordNonceIncrese s addr) b =
      nonceDeltaOf s b + if b = addr then 1 else 0 := by
  unfold nonceDeltaOf
  rw [recordNonceIncrese_apply]
  by_cases hb : b = addr
  · subst hb
    cases h : s b <;> simp [h, emptyAccountDiff]
  · cases h : s b <;> simp [hb, h]

theorem nonceDeltaOf_recordBalanceChange (s : Accounts) (addr b : Address) (delta : Int) :
    nonceDeltaOf (recordBalanceChange s addr delta) b = nonceDeltaOf s b := by
  unfold nonceDeltaOf
  rw [recordBalanceChange_apply]
  by_cases hb : b = addr
  · subst hb
    cases h : s b <;> simp [h, emptyAccountDiff]
  · simp [hb]

theorem balanceOptOf_recordBalanceChange (s : Accounts) (addr b : Address) (delta : Int) :
    balanceOptOf (recordBalanceChange s addr delta) b =
      if b = addr then some (balanceDeltaOf s addr + delta) else balanceOptOf s b := by
  unfold balanceOptOf balanceDeltaOf
  rw [recordBalanceChange_apply]
  by_cases hb : b = addr
  · subst hb
    cases h : s b <;> simp [h, emptyAccountDiff]
  · simp [hb]

theorem sumAmounts_cons (p : Address × Int) (l : List (Address × Int)) (b : Address) :
    sumAmounts (p :: l) b = (if p.1 = b then p.2 else 0) + sumAmounts l b := by
  unfold sumAmounts
  by_cases hp : p.1 = b <;> simp [hp, List.filter_cons]

theorem sumAmounts_eq_zero_of_not_mem (l : List (Address × Int)) (b : Address)
    (h : l.all (fun p => ¬ p.1 = b)) : sumAmounts l b = 0 := by
  induction l with
  | nil => rfl
  | cons p l ih =>
    simp only [List.all_cons, Bool.and_eq_true, decide_eq_true_eq] at h
    rw [sumAmounts_cons, if_neg (by simpa using h.1), ih (by simpa using h.2)]
    simp

theorem balanceOptOf_applyBalanceRecords :
    ∀ (l : List (Address × Int)) (s : Accounts) (b : Address),
      balanceOptOf (applyBalanceRecords l s) b =
        if l.any (fun p => p.1 = b) then some (balanceDeltaOf s b + sumAmounts l b)
        else balanceOptOf s b := by
  intro l
  induction l with
  | nil =>
    intro s b
    simp [applyBalanceRecords, sumAmounts]
  | cons p l ih =>
    intro s b
    have hstep : applyBalanceRecords (p :: l) s =
        applyBalanceRecords l (recordBalanceChange s p.1 p.2) := rfl
    rw [hstep, ih, sumAmounts_cons, balanceOptOf_recordBalanceChange,
      balanceDeltaOf_recordBalanceChange]
    by_cases hp : p.1 = b
    · subst hp
      by_cases hany : (l.any fun q => decide (q.1 = p.1)) = true
      · simp only [if_pos rfl, List.any_cons, hany, decide_True, Bool.true_or, if_true]
        congr 1
        ring
      · have hz : sumAmounts l p.1 = 0 :=
          sumAmounts_eq_zero_of_not_mem l p.1 (by
            rw [List.all_eq_true]
            intro x hx
            by_contra hc
            simp only [decide_eq_true_eq, Decidable.not_not] at hc
            exact hany (List.any_eq_true.mpr ⟨x, hx, by simpa using hc⟩))
        simp only [if_pos rfl, List.any_cons, decide_True, Bool.true_or, if_true,
          Bool.not_eq_true] at hany ⊢
        rw [if_neg (by simp [hany]), hz]
        congr 1
        ring
    · have hb : ¬ b = p.1 := fun h => hp h.symm
      have hd : decide (p.1 = b) = false := by simp [hp]
      simp only [if_neg hb, if_neg hp, List.any_cons, hd, Bool.false_or, zero_add,
        add_zero, add_assoc]

/-! Injectivity of the fixed-width hex rendering of 256-bit words. -/

theorem ofNibblesLE_nibblesLE : ∀ (k n : Nat), ofNibblesLE (nibblesLE k n) = n % 16 ^ k := by
  intro k
  induction k with
  | zero => intro n; simp [nibblesLE, ofNibblesLE, Nat.mod_one]
  | succ k ih =>
    intro n
    show ofNibblesLE (n % 16 :: nibblesLE k (n / 16)) = n % 16 ^ (k + 1)
    show n % 16 + 16 * ofNibblesLE (nibblesLE k (n / 16)) = n % 16 ^ (k + 1)
    rw [ih, pow_succ']
    exact (Nat.mod_mul).symm

theorem nibblesLE_lt : ∀ (k n : Nat), ∀ x ∈ nibblesLE k n, x < 16 := by
  intro k
  induction k with
  | zero => intro n x hx; simp [nibblesLE] at hx
  | succ k ih =>
    intro n x hx
    rcases List.mem_cons.mp hx with hx | hx
    · subst hx; exact Nat.mod_lt _ (by omega)
    · exact ih _ _ hx

theorem hexChar_lt_inj : ∀ a b : Fin 16, hexChar a.val = hexChar b.val → a = b := by decide

theorem map_hexChar_inj :
    ∀ (l1 l2 : List Nat), (∀ x ∈ l1, x < 16) → (∀ x ∈ l2, x < 16) →
      l1.map hexChar = l2.map hexChar → l1 = l2 := by
  intro l1
  induction l1 with
  | nil => intro l2 _ _ h; cases l2 <;> simp_all
  | cons a l1 ih =>
    intro l2 h1 h2 h
    cases l2 with
    | nil => simp at h
    | cons b l2 =>
      simp only [List.map_cons, List.cons.injEq] at h
      have ha : a < 16 := h1 a (by simp)
      have hb : b < 16 := h2 b (by simp)
      have hab : a = b := by
        have := hexChar_lt_inj ⟨a, ha⟩ ⟨b, hb⟩ h.1
        simpa [Fin.ext_iff] using this
      have htl : l1 = l2 :=
        ih l2 (fun x hx => h1 x (by simp [hx])) (fun x hx => h2 x (by simp [hx])) h.2
      rw [hab, htl]

theorem hashHex_inj (a b : Word) (h : hashHex a = hashHex b) : a = b := by
  have hdata : ('0' :: 'x' :: ((nibblesLE 64 a.val).reverse.map hexChar)) =
      ('0' :: 'x' :: ((nibblesLE 64 b.val).reverse.map hexChar)) := by
    have := congrArg String.data h
    simpa [hashHex] using this
  simp only [List.cons.injEq, true_and] at hdata
  have hrev : (nibblesLE 64 a.val).reverse = (nibblesLE 64 b.val).reverse := by
    apply map_hexChar_inj
    · intro x hx; exact nibblesLE_lt 64 a.val x (List.mem_reverse.mp hx)
    · intro x hx; exact nibblesLE_lt 64 b.val x (List.mem_reverse.mp hx)
    · exact hdata
  have hnib : nibblesLE 64 a.val = nibblesLE 64 b.val := List.reverse_injective hrev
  have hv : a.val % 16 ^ 64 = b.val % 16 ^ 64 := by
    rw [← ofNibblesLE_nibblesLE, ← ofNibblesLE_nibblesLE, hnib]
  have hbound : (2 : Nat) ^ 256 = 16 ^ 64 := by norm_num
  have ha' : a.val < 16 ^ 64 := by rw [← hbound]; exact a.isLt
  have hb' : b.val < 16 ^ 64 := by rw [← hbound]; exact b.isLt
  have ha : a.val % 16 ^ 64 = a.val := Nat.mod_eq_of_lt ha'
  have hb : b.val % 16 ^ 64 = b.val := Nat.mod_eq_of_lt hb'
  exact Fin.ext (by rw [← ha, ← hb, hv])

theorem hashHex_eq_iff (a b : Word) : hashHex a = hashHex b ↔ a = b :=
  ⟨hashHex_inj a b, fun h => h ▸ rfl⟩

/-! Claim theorems. -/

/-- C8: `tryInitAccDiff` is idempotent and never overwrites: with no
existing entry it creates the entry with zero balance delta, zero nonce
delta, empty storage map and empty code diff, and returns true; with an
existing entry it returns false and leaves the store (the entry included)
completely unchanged; and no recording operation ever deletes an entry
(presence of entries is monotone under every operation). -/
theorem tryInitAccDiff_idempotent_monotone (s : Accounts) (addr b : Address)
    (db : StateDB) (delta : Int) (k v : Word) (c : Option Bytes) :
    (tryInitAccDiff s addr).1 = (s addr).isNone ∧
    (tryInitAccDiff s addr).2 b =
      (if b = addr then some ((s addr).getD emptyAccountDiff) else s b) ∧
    tryInitAccDiff (tryInitAccDiff s addr).2 addr = (false, (tryInitAccDiff s addr).2) ∧
    (recordBalanceChange s addr delta b).isSome = ((s b).isSome || decide (b = addr)) ∧
    (recordNonceIncrese s addr b).isSome = ((s b).isSome || decide (b = addr)) ∧
    (recordCode db s addr c b).isSome = ((s b).isSome || decide (b = addr)) ∧
    (recordStorage db s addr k v b).isSome = ((s b).isSome || decide (b = addr)) := by
  have hsnd : (tryInitAccDiff s addr).2 addr = some ((s addr).getD emptyAccountDiff) := by
    rw [tryInitAccDiff_snd_apply]; simp
  refine ⟨tryInitAccDiff_fst s addr, tryInitAccDiff_snd_apply s addr b, ?_, ?_, ?_, ?_, ?_⟩
  · generalize hgen : (tryInitAccDiff s addr).2 = s2 at hsnd ⊢
    unfold tryInitAccDiff
    rw [hsnd]
  · rw [recordBalanceChange_apply]
    by_cases hb : b = addr <;> simp [hb]
  · rw [recordNonceIncrese_apply]
    by_cases hb : b = addr <;> simp [hb]
  · rw [recordCode_apply]
    by_cases hb : b = addr <;> simp [hb]
  · rw [recordStorage_apply]
    by_cases hb : b = addr <;> simp [hb]

/-- C4: `recordCode` overwrites `after` with the new code on every call;
it captures `before` from the committed-state reader exactly when the call
is the account's first touch, normalizing a nil code read to the explicit
empty sequence; and once the account has an entry, later code recordings
never change `before`. -/
theorem recordCode_before_once_after_always (db : StateDB) (s : Accounts)
    (addr : Address) (c : Option Bytes) (db' : StateDB) (c' : Option Bytes) :
    codeAfterOf (recordCode db s addr c) addr = c ∧
    codeBeforeOf (recordCode db s addr c) addr =
      (if (s addr).isNone then some ((db.getCode addr).getD []) else codeBeforeOf s addr) ∧
    codeBeforeOf (recordCode db' (recordCode db s addr c) addr c') addr =
      codeBeforeOf (recordCode db s addr c) addr := by
  have h1 : codeAfterOf (recordCode db s addr c) addr = c := by
    unfold codeAfterOf
    rw [recordCode_apply]
    simp
  have h2 : codeBeforeOf (recordCode db s addr c) addr =
      (if (s addr).isNone then some ((db.getCode addr).getD [])
       else codeBeforeOf s addr) := by
    unfold codeBeforeOf
    rw [recordCode_apply]
    cases h : s addr <;> simp [h]
  refine ⟨h1, h2, ?_⟩
  have hsome : (recordCode db s addr c addr).isSome := by
    rw [recordCode_apply]
    simp
  unfold codeBeforeOf
  rw [recordCode_apply db' (recordCode db s addr c) addr addr c']
  cases h : recordCode db s addr c addr with
  | none => rw [h] at hsome; simp at hsome
  | some d => simp [h]

/-- C1 counterexample: storage key 2 of account 0 is first touched after
account 0 already has a diff entry (created by the earlier write to key 1);
the recorded `before` for key 2 is the zero word, not the value 7 the
committed-state reader returns for it, so the `before` of a key is not
captured from the reader whenever the key is new — only when the account
itself is. -/
theorem recordStorage_key_before_not_from_reader :
    storageOf
        (recordStorage ⟨fun _ => 0, fun _ => 0, fun _ => none, fun _ _ => (7 : Word)⟩
          (recordStorage ⟨fun _ => 0, fun _ => 0, fun _ => none, fun _ _ => (7 : Word)⟩
            emptyAccounts 0 1 5)
          0 2 6) 0 2 = some ⟨0, 6⟩ ∧
    (StateDB.getState ⟨fun _ => 0, fun _ => 0, fun _ => none, fun _ _ => (7 : Word)⟩ 0 2)
        = 7 ∧
    (some (Diff.mk (0 : Word) 6) ≠ some (Diff.mk (7 : Word) 6)) := by
  refine ⟨rfl, rfl, by decide⟩

/-- C1 amended: `recordStorage` always sets the key's `after` to the new
value and always leaves an entry for the key; it captures the key's
`before` from the committed-state reader exactly when the call itself
creates the account's diff entry (account-level first touch), and in every
other case keeps the key's previous `before` — the zero word when the key
had never been recorded. -/
theorem recordStorage_characterization (db : StateDB) (s : Accounts) (addr : Address)
    (key v k' : Word) :
    storageOf (recordStorage db s addr key v) addr k' =
      if k' = key then
        some ⟨if (s addr).isNone then db.getState addr key
              else ((storageOf s addr key).getD zeroWordDiff).before, v⟩
      else storageOf s addr k' := by
  unfold storageOf
  rw [recordStorage_apply]
  cases h : s addr with
  | none =>
    by_cases hk : k' = key <;> simp [hk, h, emptyAccountDiff]
  | some d =>
    by_cases hk : k' = key <;> simp [hk, h]

/-- C2: gas is charged to the caller's balance delta exactly once, in the
transaction-end handler, as the negated (int64-converted) total gas used of
the top-level frame; the call-end and call-exit handlers' effect on the
diff store is independent of every gas quantity, so they add no gas-related
balance delta. -/
theorem gas_charged_once_at_tx_end (db : StateDB) (s : Accounts) (frame : CallFrame)
    (output : Option Bytes) (g1 g2 gf1 gf2 : Nat) :
    balanceDeltaOf (captureTxEnd s frame) frame.fromAddr =
      balanceDeltaOf s frame.fromAddr - int64ofUint64 frame.gasUsed ∧
    captureEnd db s { frame with gasUsed := gf1 } output g1 =
      captureEnd db s { frame with gasUsed := gf2 } output g2 ∧
    captureExit db s { frame with gasUsed := gf1 } output g1 =
      captureExit db s { frame with gasUsed := gf2 } output g2 := by
  refine ⟨?_, rfl, rfl⟩
  unfold captureTxEnd
  by_cases h : frame.typ ≠ OpCode.CREATE <;>
    simp [h, balanceDeltaOf_recordNonceIncrese, balanceDeltaOf_recordBalanceChange] <;>
    ring

/-- C3: the transaction-end handler increments the caller's nonce delta
exactly when the top-level frame is not a creation; the call-frame tracer
types the top-level frame `CREATE` for each creation variant (the host
collapses both variants into the boolean create flag of the call-start
event), and for a top-level creation the caller's nonce delta across
call-start plus transaction-end is exactly one, contributed by the
creation itself at call-start. -/
theorem nonce_increment_rule_at_tx_end (s : Accounts) (frame : CallFrame)
    (caller toA : Address) (input : Option Bytes) (gas g : Nat) (value : Option Int) :
    nonceDeltaOf (captureTxEnd s frame) frame.fromAddr =
      nonceDeltaOf s frame.fromAddr + (if frame.typ = OpCode.CREATE then 0 else 1) ∧
    (topFrameType true = OpCode.CREATE ∧ topFrameType false = OpCode.CALL) ∧
    nonceDeltaOf (captureStart s caller toA true input gas value) caller =
      nonceDeltaOf s caller + 1 ∧
    nonceDeltaOf
        (captureTxEnd (captureStart s caller toA true input gas value)
          { typ := topFrameType true, fromAddr := caller, toAddr := some toA,
            value := value, input := input, gasUsed := g }) caller =
      nonceDeltaOf s caller + 1 := by
  refine ⟨?_, ⟨rfl, rfl⟩, ?_, ?_⟩
  · unfold captureTxEnd
    by_cases h : frame.typ = OpCode.CREATE <;>
      simp [h, nonceDeltaOf_recordNonceIncrese, nonceDeltaOf_recordBalanceChange]
  · simp [captureStart, nonceDeltaOf_recordNonceIncrese]
  · simp [captureTxEnd, captureStart, topFrameType, nonceDeltaOf_recordNonceIncrese,
      nonceDeltaOf_recordBalanceChange]

/-- C5: replaying any sequence of recorded balance-change amounts from the
empty store leaves each account's accumulated delta equal to the sum of the
amounts attributed to it; when that delta is non-zero, the report's balance
field is the pair rendered from `from = currentBalance - delta` and
`to = currentBalance`, so the numeric to-minus-from round-trips to the delta
and hence to the sum of the individually recorded amounts. -/
theorem report_balance_round_trip (db : StateDB) (l : List (Address × Int))
    (addr : Address) (h : sumAmounts l addr ≠ 0) :
    balanceDeltaOf (applyBalanceRecords l emptyAccounts) addr = sumAmounts l addr ∧
    (reportOf db (applyBalanceRecords l emptyAccounts) addr).balance =
      ReportVal.ft ⟨balanceHexRender (db.getBalance addr - sumAmounts l addr),
                    balanceHexRender (db.getBalance addr)⟩ ∧
    db.getBalance addr - (db.getBalance addr - sumAmounts l addr) = sumAmounts l addr := by
  have hopt := balanceOptOf_applyBalanceRecords l emptyAccounts addr
  by_cases hany : (l.any fun p => decide (p.1 = addr)) = true
  · rw [if_pos hany] at hopt
    have hempty : balanceDeltaOf emptyAccounts addr = 0 := rfl
    rw [hempty, zero_add] at hopt
    cases hs : applyBalanceRecords l emptyAccounts addr with
    | none => rw [balanceOptOf, hs] at hopt; simp at hopt
    | some d =>
      rw [balanceOptOf, hs] at hopt
      have hd : d.balanceDelta = some (sumAmounts l addr) := by simpa using hopt
      refine ⟨?_, ?_, by ring⟩
      · rw [balanceDeltaOf, hs]
        simp [hd]
      · unfold reportOf report
        rw [hs]
        simp only [Option.getD_some, hd]
        simp [h]
  · exfalso
    apply h
    apply sumAmounts_eq_zero_of_not_mem
    rw [List.all_eq_true]
    intro x hx
    by_contra hc
    simp only [decide_eq_true_eq, Decidable.not_not] at hc
    exact hany (List.any_eq_true.mpr ⟨x, hx, by simpa using hc⟩)

/-- C5 witness: one recorded amount of 5 for account 0, current balance
100; the delta is 5 and the report's balance field renders 95 and 100. -/
theorem report_balance_round_trip_witness :
    balanceDeltaOf (applyBalanceRecords [((0 : Address), (5 : Int))] emptyAccounts) 0 =
      sumAmounts [((0 : Address), (5 : Int))] 0 ∧
    (reportOf ⟨fun _ => 100, fun _ => 0, fun _ => none, fun _ _ => 0⟩
        (applyBalanceRecords [((0 : Address), (5 : Int))] emptyAccounts) 0).balance =
      ReportVal.ft
        ⟨balanceHexRender ((100 : Int) - sumAmounts [((0 : Address), (5 : Int))] 0),
         balanceHexRender (100 : Int)⟩ ∧
    (100 : Int) - ((100 : Int) - sumAmounts [((0 : Address), (5 : Int))] 0) =
      sumAmounts [((0 : Address), (5 : Int))] 0 :=
  report_balance_round_trip ⟨fun _ => 100, fun _ => 0, fun _ => none, fun _ _ => 0⟩
    [((0 : Address), (5 : Int))] 0 (by decide)

/-- C6: a storage key of an account appears in the report's storage
mapping exactly when the recorded snapshot pair for that key has
`before ≠ after`; a key touched with identical before and after values is
omitted (the source compares the fixed-width hex renderings, which are
injective). -/
theorem report_storage_key_iff_changed (db : StateDB) (s : Accounts) (addr : Address)
    (k : Word) :
    ((reportOf db s addr).storage k).isSome = true ↔
      ∃ v, storageOf s addr k = some v ∧ v.before ≠ v.after := by
  unfold reportOf report storageOf
  cases hs : s addr with
  | none =>
    simp [emptyAccountDiff]
  | some d =>
    simp only [Option.getD_some]
    cases hk : d.storage k with
    | none => simp
    | some v =>
      by_cases hv : v.before = v.after
      · simp [hv, hashHex_eq_iff]
      · have hne : hashHex v.before ≠ hashHex v.after := fun hh => hv (hashHex_inj _ _ hh)
        simp [hv, hne]

/-- C9: when a storage-write opcode arrives with fewer than two stack
operands, the handler leaves the diff store untouched; with at least two
operands it reads the key from the top of the stack and the value from the
slot below it (both accesses in bounds) and records the storage change for
the executing contract. -/
theorem captureState_sstore_guard (db : StateDB) (s : Accounts)
    (contractAddr : Address) (stack : List Word) :
    (stack.length < 2 → captureState db s OpCode.SSTORE contractAddr stack = s) ∧
    (∀ h : 2 ≤ stack.length,
      captureState db s OpCode.SSTORE contractAddr stack =
        recordStorage db s contractAddr
          (stack.get ⟨stack.length - 1, by omega⟩)
          (stack.get ⟨stack.length - 2, by omega⟩)) := by
  constructor
  · intro h
    unfold captureState
    rw [if_pos rfl, if_neg (by omega)]
  · intro h
    unfold captureState
    rw [if_pos rfl, if_pos (by omega)]
    rw [List.getD_eq_get stack 0 (show stack.length - 1 < stack.length by omega),
      List.getD_eq_get stack 0 (show stack.length - 2 < stack.length by omega)]

/-- C9 witness: a one-operand stack leaves the store unchanged; a
two-operand stack records the top word 5 as the key and the word 9 below it
as the value. -/
theorem captureState_sstore_guard_witness :
    (captureState ⟨fun _ => 0, fun _ => 0, fun _ => none, fun _ _ => 0⟩ emptyAccounts
        OpCode.SSTORE 0 [5] = emptyAccounts) ∧
    (captureState ⟨fun _ => 0, fun _ => 0, fun _ => none, fun _ _ => 0⟩ emptyAccounts
        OpCode.SSTORE 0 [9, 5] =
      recordStorage ⟨fun _ => 0, fun _ => 0, fun _ => none, fun _ _ => 0⟩ emptyAccounts
        0 5 9) := by
  constructor
  · exact (captureState_sstore_guard ⟨fun _ => 0, fun _ => 0, fun _ => none, fun _ _ => 0⟩
      emptyAccounts 0 [5]).1 (by decide)
  · have h := (captureState_sstore_guard ⟨fun _ => 0, fun _ => 0, fun _ => none, fun _ _ => 0⟩
      emptyAccounts 0 [9, 5]).2 (by decide)
    simpa using h

/-- C10: when the nonce delta is non-zero, the report renders the from
nonce from `current - uint64(delta)` computed with wrapping unsigned 64-bit
subtraction, whose value is exactly `(current - delta) mod 2^64`; in
particular a delta exceeding the current nonce wraps around instead of
failing or clamping. -/
theorem report_nonce_from_wraps (db : StateDB) (addr : Address) (a : AccountDiff)
    (h1 : a.nonceDelta ≠ 0) (h2 : db.getNonce addr < 2 ^ 64) :
    (report db addr a).nonce =
      ReportVal.ft
        ⟨natHexRender (u64sub (db.getNonce addr) (uint64ofInt a.nonceDelta)),
         natHexRender (db.getNonce addr)⟩ ∧
    ((u64sub (db.getNonce addr) (uint64ofInt a.nonceDelta) : Nat) : Int) =
      ((db.getNonce addr : Int) - a.nonceDelta) % 2 ^ 64 := by
  constructor
  · unfold report
    simp [h1]
  · unfold u64sub uint64ofInt
    have e1 : (2 : Nat) ^ 64 = 18446744073709551616 := by norm_num
    have e2 : (2 : Int) ^ 64 = 18446744073709551616 := by norm_num
    rw [e1, e2]
    rw [e1] at h2
    omega

/-- C10 witness: current nonce 2 with delta 5 wraps to 2^64 - 3. -/
theorem report_nonce_from_wraps_witness :
    (report ⟨fun _ => 0, fun _ => 2, fun _ => none, fun _ _ => 0⟩ 0
        { emptyAccountDiff with nonceDelta := 5 }).nonce =
      ReportVal.ft
        ⟨natHexRender (u64sub 2 (uint64ofInt 5)), natHexRender 2⟩ ∧
    ((u64sub 2 (uint64ofInt 5) : Nat) : Int) = (((2 : Nat) : Int) - 5) % 2 ^ 64 :=
  report_nonce_from_wraps ⟨fun _ => 0, fun _ => 2, fun _ => none, fun _ _ => 0⟩ 0
    { emptyAccountDiff with nonceDelta := 5 } (by decide) (by norm_num)

/-- C7: at a concrete input (balance delta 10, current balance 10) the
report's balance pair is rendered by hex-encoding the bytes of the base-16
text, producing from 0x30 and to 0x61, not the 0x-prefixed hex digits 0x0
and 0xa of the numeric values. -/
theorem report_balance_rendering_double_hex :
    (report ⟨fun _ => 10, fun _ => 0, fun _ => none, fun _ _ => 0⟩ 0
        { emptyAccountDiff with balanceDelta := some 10 }).balance =
      ReportVal.ft ⟨"0x30", "0x61"⟩ ∧
    ("0x61" : String) ≠ "0xa" := by
  exact ⟨by decide, by decide⟩

end StateDiff
